import Mathlib

/-!
# Verification of the workshop provisioning/teardown orchestrator

Shallow embedding of the core logic of `setup-repos.js`, `cleanup-repos.js`
and the batch cleanup script of this repository, with theorems checking the
natural-language specification against it.

Conventions used throughout:
* JavaScript strings become Lean `String`s; the JS `String.prototype`
  operations used by the code (`startsWith`, `substring`, `endsWith`) are
  embedded as functions over the underlying character lists.
* Asynchronous control flow becomes explicit state passing; remote calls and
  sleeps become entries of explicit event/trace lists.
* Millisecond timestamps (`Date.now()`, rate-limit `reset`) become `Int`
  (JS subtraction of timestamps may be negative).
-/

namespace WorkshopSetup

/-! ## Retry policy (`setup-repos.js`, `retryOperation`, lines 101-129)

The real code classifies a thrown error by inspecting `error.status` and
`error.message`:
* `status === 403 && message.includes('rate limit')` — hard rate limit;
* `status === 403 && message.includes('abuse')` — secondary/abuse limit;
* anything else — ordinary error.
The embedding abstracts that classification into `ErrKind`. The behaviour of
one invocation of the wrapped operation is given by an oracle
`op : Nat → Outcome` mapping the `attempt` counter (the loop variable, which
is also the invocation index since exactly one invocation happens per loop
iteration) to its outcome. -/

inductive ErrKind where
  | hardRate
  | secondary
  | other
deriving DecidableEq, Repr

inductive Outcome where
  | ok
  | err (k : ErrKind)
deriving DecidableEq, Repr

/-- Observable events of one `retryOperation` run: an invocation of the
wrapped operation at a given value of the `attempt` loop counter, a rate
budget refresh (`this.checkRateLimit()`), or a sleep of the given number of
milliseconds (`this.sleep(ms)`). -/
inductive RetryEvent where
  | call (attempt : Nat)
  | refresh
  | sleep (ms : Nat)
deriving DecidableEq, Repr

/-- How a `retryOperation` run ends: the operation returned normally at the
given attempt; the final error was re-thrown at the given attempt; or the
`for` loop ran out of iterations and the function returned `undefined`
without throwing. -/
inductive RetryResult where
  | success (attempt : Nat)
  | raised (attempt : Nat) (k : ErrKind)
  | silent
deriving DecidableEq, Repr

/-- One state of the loop `for (let attempt = 1; attempt <= maxRetries; attempt++)`
of `retryOperation`, with `attempt` the loop counter and `remaining` the
number of loop iterations still permitted including the current one
(`remaining = maxRetries - attempt + 1`); `remaining = 0` is the loop having
exited. Mirrors `setup-repos.js` lines 102-128:
* success returns the operation's result;
* a hard rate-limit error runs `checkRateLimit()` and `continue`s (the
  `for` update still increments `attempt`);
* a secondary/abuse error sleeps `min(60000 * attempt, 300000)` ms and
  `continue`s;
* any other error is re-thrown when `attempt === maxRetries`
  (here: `remaining = 1`) and otherwise sleeps `retryDelay * attempt` ms
  before the next iteration. -/
def retryAux (op : Nat → Outcome) (retryDelay : Nat) : Nat → Nat → RetryResult × List RetryEvent
  | _attempt, 0 => (RetryResult.silent, [])
  | attempt, remaining + 1 =>
    match op attempt with
    | Outcome.ok => (RetryResult.success attempt, [RetryEvent.call attempt])
    | Outcome.err ErrKind.hardRate =>
        let r := retryAux op retryDelay (attempt + 1) remaining
        (r.1, RetryEvent.call attempt :: RetryEvent.refresh :: r.2)
    | Outcome.err ErrKind.secondary =>
        let r := retryAux op retryDelay (attempt + 1) remaining
        (r.1, RetryEvent.call attempt ::
              RetryEvent.sleep (min (60000 * attempt) 300000) :: r.2)
    | Outcome.err ErrKind.other =>
        if remaining = 0 then
          (RetryResult.raised attempt ErrKind.other, [RetryEvent.call attempt])
        else
          let r := retryAux op retryDelay (attempt + 1) remaining
          (r.1, RetryEvent.call attempt ::
                RetryEvent.sleep (retryDelay * attempt) :: r.2)

/-- `retryOperation(operation, operationName, maxRetries)`: the loop starts
at `attempt = 1` with all `maxRetries` iterations available. -/
def retryOperation (op : Nat → Outcome) (retryDelay maxRetries : Nat) :
    RetryResult × List RetryEvent :=
  retryAux op retryDelay 1 maxRetries

/-! ## JavaScript string operations

The population step uses `String.prototype.startsWith`, `substring` and the
cleanup scripts use `endsWith`; they are embedded over the character lists
underlying Lean `String`s. -/

/-- JS `s.startsWith(p)`. -/
def jsStartsWith (s p : String) : Bool :=
  p.data.isPrefixOf s.data

/-- JS `s.substring(start)` (from `start` to the end of the string). -/
def jsSubstringFrom (s : String) (start : Nat) : String :=
  String.mk (s.data.drop start)

/-- JS `s.endsWith(p)`. -/
def jsEndsWith (s p : String) : Bool :=
  p.data.isSuffixOf s.data

/-! ## Content materializer (`setup-repos.js`, `populateRepositoryFromExtract`,
lines 441-551) -/

/-- Choice of the main branch directory (lines 483-487): the directory named
like the source repository or `main` if one exists, otherwise the first
directory found. The surrounding code throws when `branches` is empty, so
the fallback value for the empty list is never reached. -/
def pickMainBranchDir (sourceRepoName : String) (branches : List String) : String :=
  match branches.find? (fun b => b == sourceRepoName || b == "main") with
  | some b => b
  | none => branches.headD ""

/-- Branch-name derivation for an extra branch directory (lines 507-512):
strip `mainBranchDir + "-"` when the directory name starts with it,
otherwise keep the directory name verbatim. -/
def deriveBranchName (mainBranchDir branchDir : String) : String :=
  if jsStartsWith branchDir (mainBranchDir ++ "-") then
    jsSubstringFrom branchDir (mainBranchDir.length + 1)
  else
    branchDir

/-- The git commands `populateRepositoryFromExtract` runs in the temporary
working tree, in order. Copying and template rendering are filesystem-only
steps and do not appear here; `configUser` stands for the two consecutive
`git config user.email` / `git config user.name` calls. `commit msg true`
embeds `git commit -m "<msg>" --allow-empty` (the flag is literally present
in both commit commands of the source). -/
inductive GitCmd where
  | init
  | configUser
  | addAll
  | commit (message : String) (allowEmpty : Bool)
  | checkoutNew (branch : String)
  | rmAll
  | remoteAddOrigin
  | pushAll
deriving DecidableEq, Repr

/-- Git commands issued for one extra branch directory (loop body,
lines 504-535): `git checkout -b <branch>`, `git rm -rf .`, copy + render,
`git add -A`, `git commit -m "Content for <branch> branch" --allow-empty`. -/
def branchCommands (mainBranchDir branchDir : String) : List GitCmd :=
  [GitCmd.checkoutNew (deriveBranchName mainBranchDir branchDir),
   GitCmd.rmAll,
   GitCmd.addAll,
   GitCmd.commit ("Content for " ++ deriveBranchName mainBranchDir branchDir ++ " branch") true]

/-- The full git command trace of `populateRepositoryFromExtract`
(lines 456-540): init and config, the main branch's add and
`--allow-empty` commit, every non-main branch directory's commands in
order, then `git remote add origin …` and the single
`git push -u origin --all`. -/
def populateGitCommands (mainBranchDir : String) (branches : List String) : List GitCmd :=
  [GitCmd.init, GitCmd.configUser,
   GitCmd.addAll, GitCmd.commit "Initial commit from release package" true]
  ++ ((branches.filter (fun b => b != mainBranchDir)).flatMap (branchCommands mainBranchDir))
  ++ [GitCmd.remoteAddOrigin, GitCmd.pushAll]

/-! ## Rate budget tracker (`setup-repos.js`, `checkRateLimit`, lines 56-85)

`checkRateLimit` stores the queried `{limit, remaining, reset}` and, when
`remaining < CONFIG.rateLimitBuffer`, computes `waitTime = reset - Date.now()`
and, if `waitTime > 0`, awaits `this.sleep(waitTime + 1000)` before
returning. Times are millisecond timestamps, embedded as `Int`. -/

structure RateLimitInfo where
  limit : Int
  remaining : Int
  reset : Int
deriving DecidableEq, Repr

/-- Number of milliseconds `checkRateLimit` sleeps before returning, as a
function of the queried rate data, the configured buffer and the current
time: `reset - now + 1000` when the remaining budget is below the buffer
and the reset time is still in the future, `0` otherwise. -/
def checkRateLimitSleep (info : RateLimitInfo) (buffer now : Int) : Int :=
  if info.remaining < buffer then
    let waitTime := info.reset - now
    if waitTime > 0 then waitTime + 1000 else 0
  else 0

/-- Earliest instant at which the code following `await this.checkRateLimit()`
— in particular the next remote call — can run: the sleep is awaited inside
`checkRateLimit` before it returns. -/
def nextCallTime (info : RateLimitInfo) (buffer now : Int) : Int :=
  now + checkRateLimitSleep info buffer now

/-! ## Teardown: confirmation gate (`cleanup-repos.js`, `confirmDeletion`,
lines 110-143, `DryRunCleanup.confirmDeletion`, lines 277-300; the batch
cleanup script repeats both verbatim) -/

structure Attendee where
  githubUsername : String
  email : Option String
deriving DecidableEq, Repr

/-- A discovered repository as queued for deletion (`findExistingRepos`
pushes `{attendee, repoName, repoUrl, createdAt, updatedAt}`). -/
structure FoundRepo where
  attendee : Attendee
  repoName : String
  repoUrl : String
  createdAt : String
  updatedAt : String
deriving DecidableEq, Repr

/-- `confirmDeletion(repos)`: with no repositories it declines immediately;
otherwise it prompts and proceeds exactly when the operator's answer is the
literal string `DELETE` (`return answer === 'DELETE'`). The operator's input
is the `answer` argument. -/
def confirmDeletion (repos : List FoundRepo) (answer : String) : Bool :=
  if repos.length = 0 then false
  else answer == "DELETE"

/-- `DryRunCleanup.confirmDeletion(repos)`: prints the discovery result and
returns `false` on every path, for every input. -/
def dryRunConfirmDeletion (_repos : List FoundRepo) (_answer : String) : Bool :=
  false

/-- The repository-delete calls (`octokit.rest.repos.delete`) issued by
`WorkshopRepoCleanup.run`: the deletion loop runs only when `confirmDeletion`
returned `true`; otherwise the run returns after "Cleanup cancelled by
user" with no delete call. -/
def cleanupDeleteCalls (repos : List FoundRepo) (answer : String) : List String :=
  if confirmDeletion repos answer then repos.map (fun r => r.repoName) else []

/-- The delete calls issued by a dry-run (`--dry-run`) cleanup run, whose
`confirmDeletion` override always declines. -/
def dryRunCleanupDeleteCalls (repos : List FoundRepo) (answer : String) : List String :=
  if dryRunConfirmDeletion repos answer then repos.map (fun r => r.repoName) else []

/-! ## Teardown: discovery

The repository ships two teardown scripts with different discovery
strategies:
* `cleanup-repos.js` (`findExistingRepos`, lines 78-108) probes, per
  attendee, the one exact name `<sourceRepo>-<username>` with
  `octokit.rest.repos.get`; nothing with another prefix is ever probed.
* The batch cleanup script's `findExistingRepos` makes a single
  `octokit.rest.repos.listForOrg` call with `per_page: 100` and no
  pagination loop — its `allRepos` is one response page, at most the first
  100 repositories of the scope, not necessarily the whole scope — and, for
  each attendee, keeps those listed repositories whose name ends with
  `-<githubUsername>`.
Repository objects are embedded by the fields the scripts read. -/

structure OrgRepo where
  name : String
  htmlUrl : String
  createdAt : String
  updatedAt : String
deriving DecidableEq, Repr

/-- `findExistingRepos(attendees)` of `cleanup-repos.js` (lines 78-108):
for each attendee, derive `repoName = `${CONFIG.sourceRepo}-${username}``
and probe exactly that name with `repos.get` against the target scope;
on success push a `FoundRepo`, on 404 (or any other error, which only
warns) skip the attendee. -/
def probeFindExistingRepos (scope : List OrgRepo) (sourceRepo : String)
    (attendees : List Attendee) : List FoundRepo :=
  attendees.filterMap (fun attendee =>
    match scope.find? (fun r => r.name == sourceRepo ++ "-" ++ attendee.githubUsername) with
    | some r =>
        some { attendee := attendee
               repoName := r.name
               repoUrl := r.htmlUrl
               createdAt := r.createdAt
               updatedAt := r.updatedAt }
    | none => none)

/-- `findExistingRepos(attendees)` of the batch cleanup script: for each
attendee, `allRepos.filter(repo => repo.name.endsWith('-' + username))`,
every match pushed as a `FoundRepo`. `listedRepos` is the single
`listForOrg` response page the script destructures (`per_page: 100`, no
pagination): at most the first 100 repositories of the scope. -/
def findExistingRepos (listedRepos : List OrgRepo) (attendees : List Attendee) : List FoundRepo :=
  attendees.flatMap (fun attendee =>
    let suffix := "-" ++ attendee.githubUsername
    (listedRepos.filter (fun repo => jsEndsWith repo.name suffix)).map
      (fun repo =>
        { attendee := attendee
          repoName := repo.name
          repoUrl := repo.htmlUrl
          createdAt := repo.createdAt
          updatedAt := repo.updatedAt }))

/-! ## Per-item provisioning and the result ledger
(`setup-repos.js`, `setupReposForAttendee`, lines 834-925, with
`checkRepoExists`, lines 387-401, and the `this.results` ledgers of the
`WorkshopRepoSetup` constructor, lines 38-42)

One work item is one `(attendee, source repository)` pair of the batch map
at lines 844-914. The remote organization is embedded as the list of
repository names existing in it; `checkRepoExists` is its membership probe.
The downstream remote work of an item — `createRepositoryFromRelease`
(creation plus population) and `addCollaborator`, both under
`retryOperation` — is abstracted by an oracle giving each derived
repository name its outcome; issue creation and Codespaces prebuilds are
wrapped in their own `try`/`catch` and can neither fail the item nor change
which repositories exist, so they do not appear. Batches inside
`setupReposForAttendee` and across attendees only interleave independent
items; the model processes the work items sequentially.

The ledger entries carry the fields common to all three `this.results`
pushes (`attendee`, `repoName`, `sourceRepo`); the extra per-ledger fields
(`reason`, `repoUrl`, `error`) are constants or the error message and play
no role in the claims. -/

/-- Outcome of the remote work of one item whose existence probe found no
repository: everything succeeded; the `createInOrg` call succeeded but a
later step of the item failed even after retries (the repository then
exists remotely); or the item failed before any repository was created. -/
inductive CreateOutcome where
  | success
  | failAfterCreate
  | failBeforeCreate
deriving DecidableEq, Repr

structure WorkItem where
  attendee : Attendee
  sourceRepoName : String
deriving DecidableEq, Repr

/-- `const newRepoName = `${sourceRepoName}-${attendee.githubUsername}`. -/
def derivedRepoName (it : WorkItem) : String :=
  it.sourceRepoName ++ "-" ++ it.attendee.githubUsername

structure ResultEntry where
  attendee : Attendee
  repoName : String
  sourceRepo : String
deriving DecidableEq, Repr

/-- The ledger entry a work item pushes on any of its three exits. -/
def itemEntry (it : WorkItem) : ResultEntry :=
  { attendee := it.attendee
    repoName := derivedRepoName it
    sourceRepo := it.sourceRepoName }

/-- The three result ledgers of `this.results`. -/
structure Results where
  success : List ResultEntry
  skipped : List ResultEntry
  failed : List ResultEntry
deriving DecidableEq, Repr

def Results.empty : Results := ⟨[], [], []⟩

/-- The remote organization: the names of the repositories existing in it. -/
structure OrgState where
  repos : List String
deriving DecidableEq, Repr

/-- `checkRepoExists(repoName)`: `octokit.rest.repos.get` succeeds exactly
when the repository exists (a 404 yields `false`). -/
def checkRepoExists (st : OrgState) (name : String) : Bool :=
  decide (name ∈ st.repos)

/-- Remote calls of one work item that the claims talk about: the existence
probe (`repos.get`), repository creation (`repos.createInOrg`), population
(the `git push` of the new content), and the collaborator grant
(`repos.addCollaborator`). -/
inductive ApiCall where
  | getRepo (name : String)
  | createRepo (name : String)
  | pushContent (name : String)
  | addCollaborator (name : String) (username : String)
deriving DecidableEq, Repr

/-- One work item of `setupReposForAttendee` (lines 844-914): probe the
derived name; if found, push to `skipped` and return with no further call;
otherwise create, populate and grant, pushing to `success` on success and
to `failed` when the `catch` at line 903 receives an error. A repository
created before the failure stays created. -/
def processItem (oracle : String → CreateOutcome) (st : OrgState) (res : Results)
    (it : WorkItem) : OrgState × Results × List ApiCall :=
  if checkRepoExists st (derivedRepoName it) then
    (st,
     { res with skipped := res.skipped ++ [itemEntry it] },
     [ApiCall.getRepo (derivedRepoName it)])
  else
    match oracle (derivedRepoName it) with
    | CreateOutcome.success =>
        ({ repos := st.repos ++ [derivedRepoName it] },
         { res with success := res.success ++ [itemEntry it] },
         [ApiCall.getRepo (derivedRepoName it), ApiCall.createRepo (derivedRepoName it),
          ApiCall.pushContent (derivedRepoName it),
          ApiCall.addCollaborator (derivedRepoName it) it.attendee.githubUsername])
    | CreateOutcome.failAfterCreate =>
        ({ repos := st.repos ++ [derivedRepoName it] },
         { res with failed := res.failed ++ [itemEntry it] },
         [ApiCall.getRepo (derivedRepoName it), ApiCall.createRepo (derivedRepoName it)])
    | CreateOutcome.failBeforeCreate =>
        (st,
         { res with failed := res.failed ++ [itemEntry it] },
         [ApiCall.getRepo (derivedRepoName it)])

/-- One whole orchestrator run over its work items (the cross product of
attendees and template repositories), threading the remote organization
state and the ledgers. -/
def runItems (oracle : String → CreateOutcome) :
    List WorkItem → OrgState → Results → OrgState × Results
  | [], st, res => (st, res)
  | it :: rest, st, res =>
      let step := processItem oracle st res it
      runItems oracle rest step.1 step.2.1

/-! ## Theorems -/

/-- Unfolding lemma for one iteration of the `retryOperation` loop. -/
theorem retryAux_succ (op : Nat → Outcome) (d attempt m : Nat) :
    retryAux op d attempt (m + 1)
      = (match op attempt with
         | Outcome.ok => (RetryResult.success attempt, [RetryEvent.call attempt])
         | Outcome.err ErrKind.hardRate =>
             let r := retryAux op d (attempt + 1) m
             (r.1, RetryEvent.call attempt :: RetryEvent.refresh :: r.2)
         | Outcome.err ErrKind.secondary =>
             let r := retryAux op d (attempt + 1) m
             (r.1, RetryEvent.call attempt ::
                   RetryEvent.sleep (min (60000 * attempt) 300000) :: r.2)
         | Outcome.err ErrKind.other =>
             if m = 0 then
               (RetryResult.raised attempt ErrKind.other, [RetryEvent.call attempt])
             else
               let r := retryAux op d (attempt + 1) m
               (r.1, RetryEvent.call attempt ::
                     RetryEvent.sleep (d * attempt) :: r.2)) := by rfl

/-- C1 (counterexample): with `maxRetries = 2` and an operation whose first
two invocations fail with a hard rate-limit error and whose third would
succeed, `retryOperation` invokes the operation exactly twice and then
returns silently. If a hard-rate-limit failure consumed no attempt, the
loop would still have its full budget after the two hard-limit failures and
the third, successful invocation would be reached; instead each hard-limit
failure consumed one of the two attempts. -/
theorem retryOperation_hard_limit_consumes_attempts_cex :
    retryOperation (fun n => if n ≤ 2 then Outcome.err ErrKind.hardRate else Outcome.ok) 5000 2
      = (RetryResult.silent,
         [RetryEvent.call 1, RetryEvent.refresh, RetryEvent.call 2, RetryEvent.refresh]) := rfl

/-- C1 (amended): a failure classified as a hard rate limit triggers an
immediate rate-budget refresh and an immediate retry with no backoff sleep,
but it does consume an attempt: the loop continues with the attempt counter
incremented and one fewer iteration remaining, and a long enough sequence of
hard-rate-limit failures alone exhausts the attempts (after which
`retryOperation` returns without raising). -/
theorem retryAux_hardRate_refreshes_and_consumes (op : Nat → Outcome)
    (d attempt m : Nat) (h : op attempt = Outcome.err ErrKind.hardRate) :
    retryAux op d attempt (m + 1)
      = ((retryAux op d (attempt + 1) m).1,
         RetryEvent.call attempt :: RetryEvent.refresh :: (retryAux op d (attempt + 1) m).2) := by
  rw [retryAux_succ, h]

/-- C1 (witness): the amended statement at a concrete hard-rate-limit
failure on the final attempt. -/
theorem retryAux_hardRate_witness :
    retryAux (fun _ => Outcome.err ErrKind.hardRate) 5000 1 1
      = ((retryAux (fun _ => Outcome.err ErrKind.hardRate) 5000 2 0).1,
         RetryEvent.call 1 :: RetryEvent.refresh
           :: (retryAux (fun _ => Outcome.err ErrKind.hardRate) 5000 2 0).2) :=
  retryAux_hardRate_refreshes_and_consumes _ 5000 1 0 rfl

/-- The character list underlying a concatenation. -/
theorem string_data_append (a b : String) : (a ++ b).data = a.data ++ b.data := rfl

/-- JS `startsWith` characterized: `d.startsWith(p)` holds exactly when `d`
is `p` followed by some (possibly empty) remainder. -/
theorem jsStartsWith_iff (d p : String) :
    jsStartsWith d p = true ↔ ∃ rest, d = p ++ rest := by
  unfold jsStartsWith
  rw [List.isPrefixOf_iff_prefix]
  constructor
  · rintro ⟨t, ht⟩
    refine ⟨String.mk t, String.ext ?_⟩
    rw [string_data_append]
    exact ht.symm
  · rintro ⟨rest, rfl⟩
    exact ⟨rest.data, (string_data_append p rest).symm⟩

/-- C7: an extra branch directory named `<mainDir>-<branchName>` (the main
branch directory name, a hyphen, then the rest) yields the branch name with
that prefix stripped, and a directory name not of that form is used
verbatim. -/
theorem deriveBranchName_strips_mainDir_dash (mainDir d : String) :
    (∀ rest : String, d = mainDir ++ "-" ++ rest → deriveBranchName mainDir d = rest)
  ∧ ((¬ ∃ rest : String, d = mainDir ++ "-" ++ rest) → deriveBranchName mainDir d = d) := by
  constructor
  · rintro rest rfl
    unfold deriveBranchName
    have hp : jsStartsWith (mainDir ++ "-" ++ rest) (mainDir ++ "-") = true :=
      (jsStartsWith_iff _ _).mpr ⟨rest, rfl⟩
    rw [if_pos hp]
    unfold jsSubstringFrom
    have hd : (mainDir ++ "-" ++ rest).data = (mainDir.data ++ ['-']) ++ rest.data := rfl
    have hlen : mainDir.length + 1 = (mainDir.data ++ ['-']).length := by
      rw [List.length_append]
      rfl
    rw [hd, hlen, List.drop_left]
  · intro hne
    have hb : ¬ (jsStartsWith d (mainDir ++ "-") = true) := by
      intro hb
      exact hne ((jsStartsWith_iff d (mainDir ++ "-")).mp hb)
    unfold deriveBranchName
    rw [if_neg hb]

/-- C7 (witness): the example of the source comment
(`nodejs-feature-add-cart-page` under main directory `nodejs`) strips to
`feature-add-cart-page`, and a directory without the prefix stays
verbatim. -/
theorem deriveBranchName_witness :
    deriveBranchName "nodejs" "nodejs-feature-add-cart-page" = "feature-add-cart-page"
  ∧ deriveBranchName "nodejs" "docs" = "docs" :=
  ⟨(deriveBranchName_strips_mainDir_dash "nodejs" "nodejs-feature-add-cart-page").1
      "feature-add-cart-page" rfl,
   (deriveBranchName_strips_mainDir_dash "nodejs" "docs").2
      (fun hex =>
        absurd ((jsStartsWith_iff "docs" ("nodejs" ++ "-")).mpr hex) (by decide))⟩

/-- C3 (code bug): an operation that fails with a secondary/abuse error on
every one of the `maxRetries = 3` attempts makes `retryOperation` sleep
after the third failure and then fall out of the loop, returning normally
(`undefined`) with no error raised — the `continue` on the secondary-limit
path skips the `attempt === maxRetries` re-throw, although the code's own
log line promises a "retry 3/3". The spec says exhausting `maxAttempts` on
this path re-raises the final error. -/
theorem retryOperation_secondary_exhaustion_silent :
    retryOperation (fun _ => Outcome.err ErrKind.secondary) 5000 3
      = (RetryResult.silent,
         [RetryEvent.call 1, RetryEvent.sleep 60000,
          RetryEvent.call 2, RetryEvent.sleep 120000,
          RetryEvent.call 3, RetryEvent.sleep 180000]) := rfl

/-- C8: a failure classified as secondary/abuse throttling at attempt `n` is
followed by a sleep of exactly `min(60000 * n, 300000)` milliseconds before
the next attempt, and any other (non-rate-limit) failure at a non-final
attempt `n` by a sleep of exactly `retryDelay * n` milliseconds. -/
theorem retryAux_backoff_durations (op : Nat → Outcome) (d attempt m : Nat) :
    (op attempt = Outcome.err ErrKind.secondary →
      (retryAux op d attempt (m + 1)).2
        = RetryEvent.call attempt :: RetryEvent.sleep (min (60000 * attempt) 300000)
            :: (retryAux op d (attempt + 1) m).2)
  ∧ (op attempt = Outcome.err ErrKind.other →
      (retryAux op d attempt (m + 2)).2
        = RetryEvent.call attempt :: RetryEvent.sleep (d * attempt)
            :: (retryAux op d (attempt + 1) (m + 1)).2) := by
  constructor
  · intro h
    rw [retryAux_succ, h]
  · intro h
    have h2 : m + 2 = (m + 1) + 1 := rfl
    rw [h2, retryAux_succ, h]
    simp

/-- C8 (witness): both backoff durations at attempt 2 with
`retryDelay = 5000`. -/
theorem retryAux_backoff_durations_witness :
    (retryAux (fun _ => Outcome.err ErrKind.secondary) 5000 2 3).2
      = RetryEvent.call 2 :: RetryEvent.sleep (min (60000 * 2) 300000)
          :: (retryAux (fun _ => Outcome.err ErrKind.secondary) 5000 3 2).2
  ∧ (retryAux (fun _ => Outcome.err ErrKind.other) 5000 2 3).2
      = RetryEvent.call 2 :: RetryEvent.sleep (5000 * 2)
          :: (retryAux (fun _ => Outcome.err ErrKind.other) 5000 3 2).2 :=
  ⟨(retryAux_backoff_durations (fun _ => Outcome.err ErrKind.secondary) 5000 2 2).1 rfl,
   (retryAux_backoff_durations (fun _ => Outcome.err ErrKind.other) 5000 2 1).2 rfl⟩

/-- Last element of a list extended by two elements. -/
theorem getLast?_append_pair {α : Type} (l : List α) (a b : α) :
    (l ++ [a, b]).getLast? = some b := by
  simp

/-- No push command occurs among the per-branch commands. -/
theorem pushAll_not_mem_branchCommands (m b : String) :
    GitCmd.pushAll ∉ branchCommands m b := by
  simp [branchCommands]

/-- C9: in the materialization command trace, every commit — the main
branch's and each extra branch's — carries `--allow-empty`, and exactly one
push (`git push -u origin --all`) occurs, as the very last command, hence
after every branch commit and never between branch commits. -/
theorem populate_allowEmpty_single_final_push (mainBranchDir : String) (branches : List String) :
    (∀ msg ae, GitCmd.commit msg ae ∈ populateGitCommands mainBranchDir branches → ae = true)
  ∧ (populateGitCommands mainBranchDir branches).getLast? = some GitCmd.pushAll
  ∧ (populateGitCommands mainBranchDir branches).count GitCmd.pushAll = 1 := by
  refine ⟨?_, ?_, ?_⟩
  · intro msg ae hmem
    unfold populateGitCommands at hmem
    rw [List.mem_append, List.mem_append] at hmem
    rcases hmem with (h | h) | h
    · simp at h
      exact h.2
    · rw [List.mem_flatMap] at h
      obtain ⟨b, _hb, hmem⟩ := h
      simp [branchCommands] at hmem
      exact hmem.2
    · simp at h
  · unfold populateGitCommands
    exact getLast?_append_pair _ _ _
  · unfold populateGitCommands
    rw [List.count_append, List.count_append]
    have h0 : (((branches.filter (fun b => b != mainBranchDir)).flatMap
        (branchCommands mainBranchDir))).count GitCmd.pushAll = 0 := by
      rw [List.count_eq_zero]
      intro hmem
      rw [List.mem_flatMap] at hmem
      obtain ⟨b, _hb, hmem⟩ := hmem
      exact pushAll_not_mem_branchCommands mainBranchDir b hmem
    rw [h0]
    rfl

/-- C9 (witness): the trace for a template with main directory `nodejs` and
one extra branch directory ends in the single `--all` push. -/
theorem populate_allowEmpty_witness :
    ((populateGitCommands "nodejs" ["nodejs", "nodejs-feature-x"]).getLast?
        = some GitCmd.pushAll)
  ∧ (populateGitCommands "nodejs" ["nodejs", "nodejs-feature-x"]).count GitCmd.pushAll = 1 :=
  ⟨(populate_allowEmpty_single_final_push "nodejs" ["nodejs", "nodejs-feature-x"]).2.1,
   (populate_allowEmpty_single_final_push "nodejs" ["nodejs", "nodejs-feature-x"]).2.2⟩

/-- C5: whenever the rate-budget query reports fewer remaining calls than
the configured buffer, no code after `checkRateLimit` — in particular no
further remote call — runs before the reported reset time, and if the reset
is still in the future the sleep lasts exactly until the reset plus the
1000 ms safety margin. With `remaining = 0` (below any positive buffer) and
`reset = now + T`, the next call thus happens no earlier than `T`
milliseconds from now. -/
theorem checkRateLimit_waits_for_reset (info : RateLimitInfo) (buffer now : Int)
    (h : info.remaining < buffer) :
    info.reset ≤ nextCallTime info buffer now
  ∧ (now < info.reset → checkRateLimitSleep info buffer now = (info.reset - now) + 1000) := by
  have hs : checkRateLimitSleep info buffer now
      = if info.reset - now > 0 then (info.reset - now) + 1000 else 0 := by
    unfold checkRateLimitSleep
    rw [if_pos h]
  constructor
  · unfold nextCallTime
    rw [hs]
    split_ifs <;> omega
  · intro hlt
    rw [hs, if_pos (by omega)]

/-- C5 (witness): `remaining = 0`, buffer 100, reset 500 ms from now: the
next call happens no earlier than the reset and the sleep is 500 + 1000 ms. -/
theorem checkRateLimit_waits_for_reset_witness :
    ((1500 : Int) ≤ nextCallTime ⟨5000, 0, 1500⟩ 100 1000)
  ∧ checkRateLimitSleep ⟨5000, 0, 1500⟩ 100 1000 = 500 + 1000 := by
  have h := checkRateLimit_waits_for_reset ⟨5000, 0, 1500⟩ 100 1000 (by decide)
  exact ⟨h.1, h.2 (by decide)⟩

/-- Membership characterization of the probe-based discovery of
`cleanup-repos.js`: a name is discovered exactly when it is the derived
name `<sourceRepo>-<username>` of some roster attendee and a repository of
that exact name exists in the scope. -/
theorem probe_discovery_mem (scope : List OrgRepo) (sourceRepo : String)
    (attendees : List Attendee) (n : String) :
    (∃ f ∈ probeFindExistingRepos scope sourceRepo attendees, f.repoName = n)
      ↔ ∃ a ∈ attendees, n = sourceRepo ++ "-" ++ a.githubUsername ∧ ∃ r ∈ scope, r.name = n := by
  unfold probeFindExistingRepos
  constructor
  · rintro ⟨f, hf, rfl⟩
    rw [List.mem_filterMap] at hf
    obtain ⟨a, ha, hfa⟩ := hf
    cases hfind : scope.find? (fun r => r.name == sourceRepo ++ "-" ++ a.githubUsername) with
    | none => rw [hfind] at hfa; cases hfa
    | some r =>
        rw [hfind] at hfa
        injection hfa with hfa
        subst hfa
        have hp := List.find?_some hfind
        have hname : r.name = sourceRepo ++ "-" ++ a.githubUsername := eq_of_beq hp
        exact ⟨a, ha, hname, r, List.mem_of_find?_eq_some hfind, rfl⟩
  · rintro ⟨a, ha, rfl, r, hr, hname⟩
    cases hfind : scope.find? (fun x => x.name == sourceRepo ++ "-" ++ a.githubUsername) with
    | none =>
        rw [List.find?_eq_none] at hfind
        exact absurd (by simp [hname]) (hfind r hr)
    | some r2 =>
        have hp := List.find?_some hfind
        have hname2 : r2.name = sourceRepo ++ "-" ++ a.githubUsername := eq_of_beq hp
        refine ⟨{ attendee := a, repoName := r2.name, repoUrl := r2.htmlUrl,
                  createdAt := r2.createdAt, updatedAt := r2.updatedAt }, ?_, hname2⟩
        rw [List.mem_filterMap]
        exact ⟨a, ha, by rw [hfind]⟩

/-- Membership characterization of the batch cleanup script's discovery: a
name is discovered exactly when it is among the listed repositories (the
single fetched page) and ends with `-<username>` for some roster
attendee. -/
theorem batch_discovery_mem (listedRepos : List OrgRepo) (attendees : List Attendee) (n : String) :
    (∃ f ∈ findExistingRepos listedRepos attendees, f.repoName = n)
      ↔ ((∃ r ∈ listedRepos, r.name = n)
         ∧ ∃ a ∈ attendees, jsEndsWith n ("-" ++ a.githubUsername) = true) := by
  unfold findExistingRepos
  constructor
  · rintro ⟨f, hf, rfl⟩
    rw [List.mem_flatMap] at hf
    obtain ⟨a, ha, hf⟩ := hf
    rw [List.mem_map] at hf
    obtain ⟨r, hr, rfl⟩ := hf
    rw [List.mem_filter] at hr
    exact ⟨⟨r, hr.1, rfl⟩, ⟨a, ha, hr.2⟩⟩
  · rintro ⟨⟨r, hr, rfl⟩, ⟨a, ha, hend⟩⟩
    refine ⟨{ attendee := a, repoName := r.name, repoUrl := r.htmlUrl,
              createdAt := r.createdAt, updatedAt := r.updatedAt }, ?_, rfl⟩
    rw [List.mem_flatMap]
    refine ⟨a, ha, ?_⟩
    rw [List.mem_map]
    exact ⟨r, List.mem_filter.mpr ⟨hr, hend⟩, rfl⟩

/-- C6 (counterexample): a scope containing `other-alice` — which ends with
`-alice` for roster participant `alice` — with configured source repository
`demo`: the cited `cleanup-repos.js` discovery probes only the exact name
`demo-alice` and returns nothing, so a repository with the claimed suffix
but another prefix is not discovered. -/
theorem teardown_discovery_prefix_sensitive_cex :
    jsEndsWith "other-alice" ("-" ++ "alice") = true
  ∧ probeFindExistingRepos [⟨"other-alice", "", "", ""⟩] "demo" [⟨"alice", none⟩] = [] := by
  decide

/-- C6 (amended): teardown discovery in `cleanup-repos.js` returns exactly
the repositories of the target scope named `<sourceRepo>-<participantUsername>`
for some roster participant (an exact-name probe per attendee — names with
other prefixes are never probed); the batch cleanup script's discovery
returns exactly the repositories among those returned by its single,
unpaginated listing call (at most the first page of the scope) whose name
ends with `-<participantUsername>` for some roster participant. -/
theorem teardown_discovery_exact_names (scope listedRepos : List OrgRepo)
    (sourceRepo : String) (attendees : List Attendee) (n : String) :
    ((∃ f ∈ probeFindExistingRepos scope sourceRepo attendees, f.repoName = n)
       ↔ ∃ a ∈ attendees, n = sourceRepo ++ "-" ++ a.githubUsername ∧ ∃ r ∈ scope, r.name = n)
  ∧ ((∃ f ∈ findExistingRepos listedRepos attendees, f.repoName = n)
       ↔ ((∃ r ∈ listedRepos, r.name = n)
          ∧ ∃ a ∈ attendees, jsEndsWith n ("-" ++ a.githubUsername) = true)) :=
  ⟨probe_discovery_mem scope sourceRepo attendees n,
   batch_discovery_mem listedRepos attendees n⟩

/-- C6 (witness): the probe discovery finds `demo-alice` but not
`other-alice` in a scope containing both, and the batch discovery keeps
`other-alice` when the listing page contains it. -/
theorem teardown_discovery_exact_names_witness :
    (∃ f ∈ probeFindExistingRepos
        [⟨"demo-alice", "", "", ""⟩, ⟨"other-alice", "", "", ""⟩] "demo" [⟨"alice", none⟩],
      f.repoName = "demo-alice")
  ∧ ¬ (∃ f ∈ probeFindExistingRepos
        [⟨"demo-alice", "", "", ""⟩, ⟨"other-alice", "", "", ""⟩] "demo" [⟨"alice", none⟩],
      f.repoName = "other-alice")
  ∧ (∃ f ∈ findExistingRepos [⟨"other-alice", "", "", ""⟩] [⟨"alice", none⟩],
      f.repoName = "other-alice") :=
  ⟨(teardown_discovery_exact_names
      [⟨"demo-alice", "", "", ""⟩, ⟨"other-alice", "", "", ""⟩] [] "demo"
      [⟨"alice", none⟩] "demo-alice").1.mpr (by decide),
   fun h => absurd ((teardown_discovery_exact_names
      [⟨"demo-alice", "", "", ""⟩, ⟨"other-alice", "", "", ""⟩] [] "demo"
      [⟨"alice", none⟩] "other-alice").1.mp h) (by decide),
   (teardown_discovery_exact_names [] [⟨"other-alice", "", "", ""⟩] "demo"
      [⟨"alice", none⟩] "other-alice").2.mpr (by decide)⟩

/-- C4: a cleanup run issues a repository-delete call only when the
operator's confirmation input is exactly the literal `DELETE`; any other
input (the empty input included) yields zero delete calls, and a dry-run
cleanup issues zero delete calls whatever the input. -/
theorem cleanup_deletes_require_literal_DELETE (repos : List FoundRepo) (answer : String) :
    (cleanupDeleteCalls repos answer ≠ [] → answer = "DELETE")
  ∧ (answer ≠ "DELETE" → cleanupDeleteCalls repos answer = [])
  ∧ dryRunCleanupDeleteCalls repos answer = [] := by
  refine ⟨?_, ?_, ?_⟩
  · intro hne
    unfold cleanupDeleteCalls confirmDeletion at hne
    by_cases hlen : repos.length = 0
    · simp [hlen] at hne
    · by_cases hans : answer = "DELETE"
      · exact hans
      · simp [hlen, hans] at hne
  · intro hans
    unfold cleanupDeleteCalls confirmDeletion
    by_cases hlen : repos.length = 0 <;> simp [hlen, hans]
  · unfold dryRunCleanupDeleteCalls dryRunConfirmDeletion
    simp

/-- C4 (witness): with one discovered repository and the answer `yes`, the
run issues no delete call, and neither does a dry run. -/
theorem cleanup_deletes_require_literal_DELETE_witness :
    ("yes" : String) ≠ "DELETE"
  ∧ cleanupDeleteCalls [⟨⟨"alice", none⟩, "demo-alice", "", "", ""⟩] "yes" = []
  ∧ dryRunCleanupDeleteCalls [⟨⟨"alice", none⟩, "demo-alice", "", "", ""⟩] "" = [] :=
  ⟨by decide,
   (cleanup_deletes_require_literal_DELETE [⟨⟨"alice", none⟩, "demo-alice", "", "", ""⟩] "yes").2.1
     (by decide),
   (cleanup_deletes_require_literal_DELETE [⟨⟨"alice", none⟩, "demo-alice", "", "", ""⟩] "").2.2⟩

/-- One-step unfolding of a run. -/
theorem runItems_cons (oracle : String → CreateOutcome) (it : WorkItem) (rest : List WorkItem)
    (st : OrgState) (res : Results) :
    runItems oracle (it :: rest) st res
      = runItems oracle rest (processItem oracle st res it).1 (processItem oracle st res it).2.1 := rfl

/-- When the existence probe finds the derived name, the item only records
itself in the skipped ledger: the state is untouched and the single
remote call is the probe. -/
theorem processItem_skip (oracle : String → CreateOutcome) (st : OrgState) (res : Results)
    (it : WorkItem) (h : checkRepoExists st (derivedRepoName it) = true) :
    processItem oracle st res it
      = (st, { res with skipped := res.skipped ++ [itemEntry it] },
         [ApiCall.getRepo (derivedRepoName it)]) := by
  unfold processItem
  rw [if_pos h]

/-- A repository existing before an item is processed still exists after. -/
theorem processItem_state_mono (oracle : String → CreateOutcome) (st : OrgState) (res : Results)
    (it : WorkItem) (x : String) (hx : x ∈ st.repos) :
    x ∈ (processItem oracle st res it).1.repos := by
  unfold processItem
  split
  · exact hx
  · split <;> simp [hx]

/-- One item only appends to the ledgers. -/
theorem processItem_ledgers_mono (oracle : String → CreateOutcome) (st : OrgState)
    (res : Results) (it : WorkItem) :
    res.success <+: (processItem oracle st res it).2.1.success
  ∧ res.skipped <+: (processItem oracle st res it).2.1.skipped
  ∧ res.failed <+: (processItem oracle st res it).2.1.failed := by
  unfold processItem
  split
  · exact ⟨List.prefix_rfl, List.prefix_append _ _, List.prefix_rfl⟩
  · split
    · exact ⟨List.prefix_append _ _, List.prefix_rfl, List.prefix_rfl⟩
    · exact ⟨List.prefix_rfl, List.prefix_rfl, List.prefix_append _ _⟩
    · exact ⟨List.prefix_rfl, List.prefix_rfl, List.prefix_append _ _⟩

/-- One item grows the three ledgers by exactly one entry in total. -/
theorem processItem_total_length (oracle : String → CreateOutcome) (st : OrgState)
    (res : Results) (it : WorkItem) :
    (processItem oracle st res it).2.1.success.length
      + (processItem oracle st res it).2.1.skipped.length
      + (processItem oracle st res it).2.1.failed.length
    = res.success.length + res.skipped.length + res.failed.length + 1 := by
  unfold processItem
  split
  · simp
    omega
  · split <;> (simp; omega)

/-- An item's entry lands in one of the three ledgers. -/
theorem processItem_entry_mem (oracle : String → CreateOutcome) (st : OrgState)
    (res : Results) (it : WorkItem) :
    itemEntry it ∈ (processItem oracle st res it).2.1.success
  ∨ itemEntry it ∈ (processItem oracle st res it).2.1.skipped
  ∨ itemEntry it ∈ (processItem oracle st res it).2.1.failed := by
  unfold processItem
  split
  · right; left; simp
  · split
    · left; simp
    · right; right; simp
    · right; right; simp

/-- A success entry added by one item is the item's own entry, and its
repository exists afterwards. -/
theorem processItem_success_src (oracle : String → CreateOutcome) (st : OrgState)
    (res : Results) (it : WorkItem) (e : ResultEntry) :
    e ∈ (processItem oracle st res it).2.1.success →
      e ∈ res.success
    ∨ (e = itemEntry it ∧ derivedRepoName it ∈ (processItem oracle st res it).1.repos) := by
  unfold processItem
  split
  · intro he
    left
    exact he
  · split
    · intro he
      rcases List.mem_append.mp he with h | h
      · left; exact h
      · right
        exact ⟨List.mem_singleton.mp h, by simp⟩
    · intro he; left; exact he
    · intro he; left; exact he

/-- A run never deletes a repository. -/
theorem runItems_state_mono (oracle : String → CreateOutcome) (items : List WorkItem) :
    ∀ (st : OrgState) (res : Results) (x : String), x ∈ st.repos →
      x ∈ (runItems oracle items st res).1.repos := by
  induction items with
  | nil => intro st res x hx; exact hx
  | cons it rest ih =>
      intro st res x hx
      rw [runItems_cons]
      exact ih _ _ x (processItem_state_mono oracle st res it x hx)

/-- A run only appends to the ledgers: the entries present when it starts
are a prefix of the entries present when it ends (none is removed or moved). -/
theorem runItems_ledgers_mono (oracle : String → CreateOutcome) (items : List WorkItem) :
    ∀ (st : OrgState) (res : Results),
      res.success <+: (runItems oracle items st res).2.success
    ∧ res.skipped <+: (runItems oracle items st res).2.skipped
    ∧ res.failed <+: (runItems oracle items st res).2.failed := by
  induction items with
  | nil => intro st res; exact ⟨List.prefix_rfl, List.prefix_rfl, List.prefix_rfl⟩
  | cons it rest ih =>
      intro st res
      rw [runItems_cons]
      obtain ⟨h1, h2, h3⟩ := processItem_ledgers_mono oracle st res it
      obtain ⟨g1, g2, g3⟩ := ih (processItem oracle st res it).1 (processItem oracle st res it).2.1
      exact ⟨h1.trans g1, h2.trans g2, h3.trans g3⟩

/-- A work item whose derived repository already exists when the run starts
ends up in the skipped ledger. -/
theorem runItems_skip (oracle : String → CreateOutcome) (items : List WorkItem) :
    ∀ (st : OrgState) (res : Results) (it : WorkItem),
      it ∈ items → derivedRepoName it ∈ st.repos →
      itemEntry it ∈ (runItems oracle items st res).2.skipped := by
  induction items with
  | nil => intro st res it h; exact absurd h (List.not_mem_nil it)
  | cons hd rest ih =>
      intro st res it hmem hin
      rw [runItems_cons]
      rcases List.mem_cons.mp hmem with heq | htl
      · subst heq
        have hskip : checkRepoExists st (derivedRepoName it) = true := by
          unfold checkRepoExists
          exact decide_eq_true hin
        rw [processItem_skip oracle st res it hskip]
        have hpre := (runItems_ledgers_mono oracle rest st
          { res with skipped := res.skipped ++ [itemEntry it] }).2.1
        exact hpre.subset (by simp)
      · exact ih _ _ it htl (processItem_state_mono oracle st res hd _ hin)

/-- Every entry of the success ledger at the end of a run either was there
at the start or is the entry of one of the run's work items, whose derived
repository exists in the final remote state. -/
theorem runItems_success_src (oracle : String → CreateOutcome) (items : List WorkItem) :
    ∀ (st : OrgState) (res : Results) (e : ResultEntry),
      e ∈ (runItems oracle items st res).2.success →
      e ∈ res.success
    ∨ (∃ it ∈ items, e = itemEntry it
         ∧ derivedRepoName it ∈ (runItems oracle items st res).1.repos) := by
  induction items with
  | nil => intro st res e he; left; exact he
  | cons hd rest ih =>
      intro st res e he
      rw [runItems_cons] at he ⊢
      rcases ih (processItem oracle st res hd).1 (processItem oracle st res hd).2.1 e he
        with h | ⟨it, hit, heq, hrepo⟩
      · rcases processItem_success_src oracle st res hd e h with h2 | ⟨heq, hrepo⟩
        · left; exact h2
        · right
          exact ⟨hd, List.mem_cons_self hd rest, heq,
            runItems_state_mono oracle rest _ _ _ hrepo⟩
      · right
        exact ⟨it, List.mem_cons_of_mem hd hit, heq, hrepo⟩

/-- C2: when the existence probe finds the derived repository name, the item
is recorded in the skipped ledger and the only remote call of the item is
the probe — no creation, population or collaborator call; and running the
orchestrator a second time over the same work items (against the remote
state the first run left, under an arbitrary second-run outcome oracle)
puts every entry of the first run's success ledger into the second run's
skipped ledger. -/
theorem provisioning_skip_and_idempotent (oracle1 oracle2 : String → CreateOutcome)
    (items : List WorkItem) (st0 : OrgState) :
    (∀ (st : OrgState) (res : Results) (it : WorkItem),
        checkRepoExists st (derivedRepoName it) = true →
        processItem oracle1 st res it
          = (st, { res with skipped := res.skipped ++ [itemEntry it] },
             [ApiCall.getRepo (derivedRepoName it)]))
  ∧ (∀ e, e ∈ (runItems oracle1 items st0 Results.empty).2.success →
        e ∈ (runItems oracle2 items
               (runItems oracle1 items st0 Results.empty).1 Results.empty).2.skipped) := by
  constructor
  · intro st res it h
    exact processItem_skip oracle1 st res it h
  · intro e he
    rcases runItems_success_src oracle1 items st0 Results.empty e he
      with h | ⟨it, hit, heq, hrepo⟩
    · exact absurd h (List.not_mem_nil e)
    · subst heq
      exact runItems_skip oracle2 items _ Results.empty it hit hrepo

/-- C2 (witness): one item `(alice, demo)` succeeding in the first run
against an empty organization is skipped in the second run. -/
theorem provisioning_idempotent_witness :
    itemEntry ⟨⟨"alice", none⟩, "demo"⟩
      ∈ (runItems (fun _ => CreateOutcome.success) [⟨⟨"alice", none⟩, "demo"⟩]
           (runItems (fun _ => CreateOutcome.success) [⟨⟨"alice", none⟩, "demo"⟩]
             ⟨[]⟩ Results.empty).1
           Results.empty).2.skipped :=
  (provisioning_skip_and_idempotent (fun _ => CreateOutcome.success)
      (fun _ => CreateOutcome.success) [⟨⟨"alice", none⟩, "demo"⟩] ⟨[]⟩).2 _ (by decide)

/-- C10: a run appends exactly one ledger entry per work item (the three
ledgers together grow by the number of items), never removes or moves an
entry (the initial ledgers are prefixes of the final ones), and every work
item's entry reaches one of the three ledgers whatever the outcomes of the
other items — a failing item never prevents its siblings from being
processed and recorded. -/
theorem ledger_one_entry_per_item (oracle : String → CreateOutcome)
    (items : List WorkItem) (st : OrgState) (res : Results) :
    ((runItems oracle items st res).2.success.length
       + (runItems oracle items st res).2.skipped.length
       + (runItems oracle items st res).2.failed.length
     = res.success.length + res.skipped.length + res.failed.length + items.length)
  ∧ (res.success <+: (runItems oracle items st res).2.success
     ∧ res.skipped <+: (runItems oracle items st res).2.skipped
     ∧ res.failed <+: (runItems oracle items st res).2.failed)
  ∧ (∀ it ∈ items,
       itemEntry it ∈ (runItems oracle items st res).2.success
     ∨ itemEntry it ∈ (runItems oracle items st res).2.skipped
     ∨ itemEntry it ∈ (runItems oracle items st res).2.failed) := by
  refine ⟨?_, runItems_ledgers_mono oracle items st res, ?_⟩
  · induction items generalizing st res with
    | nil => simp [runItems]
    | cons hd rest ih =>
        rw [runItems_cons]
        rw [ih]
        rw [processItem_total_length]
        simp
        omega
  · induction items generalizing st res with
    | nil => intro it h; exact absurd h (List.not_mem_nil it)
    | cons hd rest ih =>
        intro it hmem
        rw [runItems_cons]
        rcases List.mem_cons.mp hmem with heq | htl
        · subst heq
          obtain ⟨p1, p2, p3⟩ := runItems_ledgers_mono oracle rest
            (processItem oracle st res it).1 (processItem oracle st res it).2.1
          rcases processItem_entry_mem oracle st res it with h | h | h
          · left; exact p1.subset h
          · right; left; exact p2.subset h
          · right; right; exact p3.subset h
        · exact ih _ _ it htl

/-- C10 (witness): a failing sole item still lands in a ledger. -/
theorem ledger_one_entry_witness :
    itemEntry ⟨⟨"alice", none⟩, "demo"⟩
      ∈ (runItems (fun _ => CreateOutcome.failBeforeCreate) [⟨⟨"alice", none⟩, "demo"⟩]
           ⟨[]⟩ Results.empty).2.success
  ∨ itemEntry ⟨⟨"alice", none⟩, "demo"⟩
      ∈ (runItems (fun _ => CreateOutcome.failBeforeCreate) [⟨⟨"alice", none⟩, "demo"⟩]
           ⟨[]⟩ Results.empty).2.skipped
  ∨ itemEntry ⟨⟨"alice", none⟩, "demo"⟩
      ∈ (runItems (fun _ => CreateOutcome.failBeforeCreate) [⟨⟨"alice", none⟩, "demo"⟩]
           ⟨[]⟩ Results.empty).2.failed :=
  (ledger_one_entry_per_item (fun _ => CreateOutcome.failBeforeCreate)
      [⟨⟨"alice", none⟩, "demo"⟩] ⟨[]⟩ Results.empty).2.2 _ (by decide)

end WorkshopSetup
